import Mathlib

/-!
Shallow embedding of the pattern-matching and content-rewriting subsystem of
goStaticEnv (src/envfs.go), together with the Go standard-library string and
path helpers it calls.  Strings are modelled as `List Char` (Go strings here
carry only text; byte lengths are recovered with `utf8Len`).  The process
environment is passed explicitly as a function `Str → Option Str`, modelling
`os.LookupEnv`.  The target platform is Linux (see src/Dockerfile), so
`filepath.Separator` is `'/'` and `filepath.ToSlash` is the identity.
-/

namespace GoStaticEnv

abbrev Str := List Char

/-! ## Go `strings` / `filepath` primitives -/

/-- `strings.HasPrefix s pre`. -/
def hasPrefix (s pre : Str) : Bool := pre.isPrefixOf s

/-- `strings.Split s (String sep)` for a single-character separator:
`splitOnChar ',' "a,b"` is `["a","b"]`, `splitOnChar ',' ""` is `[""]`. -/
def splitOnChar (sep : Char) : Str → List Str
  | [] => [[]]
  | c :: rest =>
    if c = sep then [] :: splitOnChar sep rest
    else
      match splitOnChar sep rest with
      | h :: t => (c :: h) :: t
      | [] => [[c]]

/-- The whitespace class used by `strings.TrimSpace` (`unicode.IsSpace`),
restricted to the ASCII range that the configuration strings use. -/
def isSpaceGo (c : Char) : Bool :=
  c = ' ' || c = '\t' || c = '\n' || c = '\x0b' || c = '\x0c' || c = '\r'

/-- `strings.TrimSpace`. -/
def trimSpace (s : Str) : Str :=
  ((s.dropWhile isSpaceGo).reverse.dropWhile isSpaceGo).reverse

/-- `filepath.ToSlash`: on Linux (`Separator = '/'`) it is the identity. -/
def toSlash (s : Str) : Str := s

/-- `strings.ContainsAny pattern "*?[]"` as used by `matchPattern`. -/
def containsAnyGlob (pattern : Str) : Bool :=
  pattern.any fun c => c = '*' || c = '?' || c = '[' || c = ']'

/-! ### `filepath.Clean` (Unix rules), needed by `filepath.Dir` -/

/-- The decrement loop of `filepath.Clean`'s `..` backtracking: starting from
write position `w = out.length - 1`, keep decrementing while `w > dd` and the
buffer byte at index `w` (the head of the reversed buffer) is not a
separator.  Returns the final write position. -/
def backScan : Str → Nat → Nat → Nat
  | [], w, _ => w
  | c :: rest, w, dd => if w > dd && c ≠ '/' then backScan rest (w - 1) dd else w

/-- `filepath.Clean`'s `..` handling when `out.w > dotdot`: `out.w--`, then
scan back to the previous separator (or the `dotdot` barrier) and truncate. -/
def cleanBacktrack (out : Str) (dd : Nat) : Str :=
  out.take (backScan out.reverse (out.length - 1) dd)

theorem dropWhile_length_le {α} (p : α → Bool) (l : List α) :
    (l.dropWhile p).length ≤ l.length := by
  induction l with
  | nil => simp
  | cons a l ih =>
    simp only [List.dropWhile_cons]
    split
    · exact Nat.le_trans ih (Nat.le_succ _)
    · exact Nat.le_refl _

/-- Port of the main loop of `filepath.Clean` (src of Go `path/filepath`),
processing the remaining input `r` with current output `out` and the
`dotdot` barrier index. -/
def cleanLoop (rooted : Bool) : Str → Str → Nat → Str
  | [], out, _ => out
  | '/' :: r, out, dd => cleanLoop rooted r out dd
  | ['.'], out, _ => out
  | '.' :: '/' :: r, out, dd => cleanLoop rooted ('/' :: r) out dd
  | '.' :: '.' :: r2, out, dd =>
    if r2 = [] || r2.head? = some '/' then
      -- ".." element
      if out.length > dd then
        cleanLoop rooted r2 (cleanBacktrack out dd) dd
      else if !rooted then
        let out1 := (if out.length > 0 then out ++ ['/'] else out) ++ ['.', '.']
        cleanLoop rooted r2 out1 out1.length
      else
        cleanLoop rooted r2 out dd
    else
      -- real path element starting with ".."
      let out1 := (if (rooted && out.length ≠ 1) || (!rooted && out.length ≠ 0)
                   then out ++ ['/'] else out) ++ ('.' :: '.' :: r2.takeWhile (· ≠ '/'))
      cleanLoop rooted (r2.dropWhile (· ≠ '/')) out1 dd
  | '.' :: c :: r, out, dd =>
    -- real path element starting with "."
    let out1 := (if (rooted && out.length ≠ 1) || (!rooted && out.length ≠ 0)
                 then out ++ ['/'] else out) ++ ('.' :: c :: r.takeWhile (· ≠ '/'))
    cleanLoop rooted (r.dropWhile (· ≠ '/')) out1 dd
  | c :: r, out, dd =>
    -- real path element
    let out1 := (if (rooted && out.length ≠ 1) || (!rooted && out.length ≠ 0)
                 then out ++ ['/'] else out) ++ (c :: r.takeWhile (· ≠ '/'))
    cleanLoop rooted (r.dropWhile (· ≠ '/')) out1 dd
termination_by r _ _ => r.length
decreasing_by
  all_goals simp_wf
  all_goals first
    | omega
    | exact Nat.lt_of_le_of_lt (dropWhile_length_le _ _) (by omega)

/-- `filepath.Clean` for Unix separators. -/
def clean (path : Str) : Str :=
  if path = [] then ['.']
  else
    let rooted := path.head? = some '/'
    let (r0, out0, dd0) := if rooted then (path.tail, ['/'], 1) else (path, [], 0)
    let out := cleanLoop rooted r0 out0 dd0
    if out.length = 0 then ['.'] else out

/-- `filepath.Dir`: everything up to and including the final separator,
cleaned (`Dir "a/b" = "a"`, `Dir "docs" = "."`). -/
def dirPath (path : Str) : Str :=
  clean ((path.reverse.dropWhile (· ≠ '/')).reverse)

/-- `filepath.Base`. -/
def basePath (path : Str) : Str :=
  if path = [] then ['.']
  else
    let p := (path.reverse.dropWhile (· = '/')).reverse
    let b := (p.reverse.takeWhile (· ≠ '/')).reverse
    if b = [] then ['/'] else b

/-! ### `filepath.Match` (shell-style glob, `*` does not cross `/`)

Port of Go `path/filepath.Match` for `runtime.GOOS ≠ "windows"`.  The repo
only ever uses the boolean result (`matched, _ := filepath.Match(...)`), so
a bad pattern (`ErrBadPattern`) is folded into a non-match, exactly as the
callers in src/envfs.go observe it.  The bounded loops of the Go
implementation consume at least one pattern byte per iteration; the fuel
arguments are set to the pattern length plus one, so they never run out. -/

/-- `scanChunk`'s body: split the pattern at the next top-level `*`
(respecting `[...]` ranges and `\\` escapes). -/
def scanChunkBody : Str → Bool → (Str × Str)
  | [], _ => ([], [])
  | ['\\'], _ => (['\\'], [])
  | '\\' :: c :: p, inr =>
    let (ch, r) := scanChunkBody p inr
    ('\\' :: c :: ch, r)
  | '[' :: p, _ =>
    let (ch, r) := scanChunkBody p true
    ('[' :: ch, r)
  | ']' :: p, _ =>
    let (ch, r) := scanChunkBody p false
    (']' :: ch, r)
  | '*' :: p, inr =>
    if inr then
      let (ch, r) := scanChunkBody p inr
      ('*' :: ch, r)
    else ([], '*' :: p)
  | c :: p, inr =>
    let (ch, r) := scanChunkBody p inr
    (c :: ch, r)

/-- `scanChunk pattern = (star, chunk, rest)`. -/
def scanChunk : Str → (Bool × Str × Str)
  | '*' :: p =>
    let (_, c, r) := scanChunk p
    (true, c, r)
  | p =>
    let (c, r) := scanChunkBody p false
    (false, c, r)

/-- `getEsc`: read one (possibly escaped) character of a `[...]` range;
`none` models `ErrBadPattern`. -/
def getEsc : Str → Option (Char × Str)
  | [] => none
  | '-' :: _ => none
  | ']' :: _ => none
  | ['\\'] => none
  | '\\' :: c :: p => if p = [] then none else some (c, p)
  | c :: p => if p = [] then none else some (c, p)

/-- Result of `matchChunk`: the Go function returns
`(rest, true, nil)`, `("", false, nil)` or `("", false, ErrBadPattern)`. -/
inductive ChunkRes
  | ok (t : Str)
  | fail
  | badPat
  deriving DecidableEq, Repr

/-- The `[...]` range loop inside `matchChunk`: match rune `r` against the
ranges, accumulating in `acc`; returns the match flag and the chunk after
the closing `]`, or `none` for `ErrBadPattern`.  Fuel ≥ chunk length. -/
def matchRanges (r : Char) : Nat → Str → Nat → Bool → Option (Bool × Str)
  | 0, _, _, _ => none
  | fuel + 1, chunk, nrange, acc =>
    match chunk with
    | ']' :: rest =>
      if nrange > 0 then some (acc, rest)
      else none  -- getEsc would reject the leading ']'
    | _ =>
      match getEsc chunk with
      | none => none
      | some (lo, chunk1) =>
        match chunk1 with
        | '-' :: chunk2 =>
          match getEsc chunk2 with
          | none => none
          | some (hi, chunk3) =>
            matchRanges r fuel chunk3 (nrange + 1) (acc || (lo ≤ r && r ≤ hi))
        | _ =>
          matchRanges r fuel chunk1 (nrange + 1) (acc || (lo ≤ r && r ≤ lo))

/-- `matchChunk chunk s failed`: match the starless chunk against the head
of `s`; the `failed` flag mirrors the Go local that keeps consuming the
chunk for error detection after a mismatch.  Fuel ≥ chunk length. -/
def matchChunk : Nat → Str → Str → Bool → ChunkRes
  | _, [], s, failed => if failed then .fail else .ok s
  | 0, _, _, _ => .badPat
  | fuel + 1, '[' :: chunk, s, failed0 =>
    let failed := failed0 || s.isEmpty
    let r := if failed then Char.ofNat 0 else s.headD (Char.ofNat 0)
    let s1 := if failed then s else s.tail
    let (negated, chunk1) :=
      match chunk with
      | '^' :: c => (true, c)
      | c => (false, c)
    (match matchRanges r (chunk1.length + 1) chunk1 0 false with
     | none => .badPat
     | some (m, rest) => matchChunk fuel rest s1 (failed || (m == negated)))
  | fuel + 1, '?' :: chunk, s, failed0 =>
    let failed := failed0 || s.isEmpty
    if failed then matchChunk fuel chunk s true
    else matchChunk fuel chunk s.tail (s.headD ' ' = '/')
  | _, ['\\'], _, _ => .badPat
  | fuel + 1, '\\' :: c :: chunk, s, failed0 =>
    let failed := failed0 || s.isEmpty
    if failed then matchChunk fuel chunk s true
    else matchChunk fuel chunk s.tail (!(s.headD c = c))
  | fuel + 1, c :: chunk, s, failed0 =>
    let failed := failed0 || s.isEmpty
    if failed then matchChunk fuel chunk s true
    else matchChunk fuel chunk s.tail (!(s.headD c = c))

/-- The `star` search loop of `Match`: try `matchChunk` at each later start
of `name`, stopping at a separator.  `goRest` continues with the rest of
the pattern, `restEmpty` tells whether the pattern is exhausted after this
chunk. -/
def tryStarLoop (goRest : Str → Bool) (chunk : Str) (restEmpty : Bool) : Str → Bool
  | [] => false
  | c :: name1 =>
    if c = '/' then false
    else
      match matchChunk (chunk.length + 1) chunk name1 false with
      | .ok t =>
        if restEmpty && !t.isEmpty then tryStarLoop goRest chunk restEmpty name1
        else goRest t
      | .fail => tryStarLoop goRest chunk restEmpty name1
      | .badPat => false

/-- The `Pattern:` loop of `filepath.Match`.  Fuel ≥ pattern length (each
iteration consumes at least one pattern byte). -/
def goMatchFuel : Nat → Str → Str → Bool
  | _, [], name => name.isEmpty
  | 0, _, _ => false
  | fuel + 1, pattern, name =>
    let (star, chunk, rest) := scanChunk pattern
    if star && chunk.isEmpty then !(name.contains '/')
    else
      match matchChunk (chunk.length + 1) chunk name false with
      | .ok t =>
        if t.isEmpty || !rest.isEmpty then goMatchFuel fuel rest t
        else if star then tryStarLoop (goMatchFuel fuel rest) chunk rest.isEmpty name
        else false
      | .fail =>
        if star then tryStarLoop (goMatchFuel fuel rest) chunk rest.isEmpty name
        else false
      | .badPat => false

/-- `matched, _ := filepath.Match(pattern, name)` as the callers in
src/envfs.go use it. -/
def goMatch (pattern name : Str) : Bool :=
  goMatchFuel (pattern.length + 1) pattern name

/-! ## The pattern matcher (src/envfs.go lines 118-249) -/

/-- `parsePatterns` (src/envfs.go lines 118-132): comma-separated list,
entries trimmed, empty entries dropped. -/
def parsePatterns (patterns : Str) : List Str :=
  if patterns = [] then []
  else ((splitOnChar ',' (trimSpace patterns)).map trimSpace).filter (· ≠ [])

/-- `matchPattern` (src/envfs.go lines 134-185). -/
def matchPattern (path pattern0 : Str) (isInclude : Bool) : Bool :=
  let pattern := toSlash (trimSpace pattern0)
  if path = pattern then true
  else if containsAnyGlob pattern then
    if goMatch pattern path then true
    else if pattern.contains '/' then
      -- for path-based patterns like docs/v*, check directory matching
      if goMatch pattern (dirPath path) then true
      else if isInclude then
        let patternDir := dirPath pattern
        patternDir ≠ ['.'] &&
          (path = patternDir || hasPrefix path (patternDir ++ ['/']) ||
           hasPrefix patternDir (path ++ ['/']))
      else false
    else
      (splitOnChar '/' path).any fun part => goMatch pattern part
  else
    if hasPrefix path (pattern ++ ['/']) then true
    else if isInclude && hasPrefix pattern (path ++ ['/']) then true
    else (splitOnChar '/' path).any fun part => part = pattern

/-- `fileExtensions` (src/envfs.go lines 54-57). -/
def fileExtensions : List Str :=
  [['h','t','m','l'], ['j','s'], ['c','s','s'], ['j','s','o','n'],
   ['t','x','t'], ['m','d'], ['x','m','l'], ['y','m','l'],
   ['y','a','m','l'], ['l','o','g'], ['b','a','k']]

/-- `isFilePattern` (src/envfs.go lines 213-219). -/
def isFilePattern (pattern : Str) : Bool :=
  if hasPrefix pattern ['*', '.'] && !(pattern.contains '/') then
    fileExtensions.contains (pattern.drop 2)
  else
    pattern.contains '/' && pattern.contains '*' && pattern.contains '.'

/-- `matchesFilePattern` (src/envfs.go lines 221-240). -/
def matchesFilePattern (filePath pattern0 : Str) : Bool :=
  let pattern := toSlash (trimSpace pattern0)
  if hasPrefix pattern ['*', '.'] && !(pattern.contains '/') &&
      fileExtensions.contains (pattern.drop 2) then
    goMatch pattern (basePath filePath)
  else if pattern.contains '/' && pattern.contains '.' then
    goMatch pattern filePath
  else
    matchPattern (dirPath filePath) pattern true

/-- `shouldInclude` (src/envfs.go lines 187-211): excludes first, then the
empty-include default, then the include loop with its file-pattern
dispatch. -/
def shouldInclude (path : Str) (includePatterns excludePatterns : List Str)
    (isFile : Bool) : Bool :=
  if excludePatterns.any (fun p => matchPattern path p false) then false
  else if includePatterns.isEmpty then true
  else
    includePatterns.any fun p =>
      if isFile && isFilePattern p then matchesFilePattern path p
      else matchPattern path p true

/-- `hasFilePatterns` (src/envfs.go lines 242-249). -/
def hasFilePatterns (patterns : List Str) : Bool :=
  patterns.any isFilePattern

/-! ## The placeholder engine (src/envfs.go lines 52-84)

`envVarPattern` is the regular expression
`\$\{([A-Za-z_][A-Za-z0-9\_]*)(:=([^\x7d]*))?\x7d`; its leftmost,
non-overlapping matching discipline is realized here as a left-to-right
scanner.  `[A-Za-z0-9_]*` is greedy and no shorter name can rescue a failed
match (the characters that may follow a name in the pattern, `:` and the
closing brace, are not name characters), so greedy matching coincides with
maximal munch; likewise `[^\x7d]*` folled by the closing brace takes the
default exactly up to the first closing brace. -/

/-- The leading character class `[A-Za-z_]` of `envVarPattern`. -/
def isNameStart (c : Char) : Bool :=
  ('A' ≤ c && c ≤ 'Z') || ('a' ≤ c && c ≤ 'z') || c = '_'

/-- The continuation class `[A-Za-z0-9_]` of `envVarPattern`. -/
def isNameChar (c : Char) : Bool :=
  isNameStart c || ('0' ≤ c && c ≤ '9')

/-- Try to parse the part of a token after the opening `"${"`:
returns `(name, sepPresent, defaultText, rest)` where `sepPresent` records
whether the optional `(:=([^\x7d]*))` group participated. -/
def parseToken : Str → Option (Str × Bool × Str × Str)
  | [] => none
  | c :: cs =>
    if isNameStart c then
      let name := c :: cs.takeWhile isNameChar
      match cs.dropWhile isNameChar with
      | '}' :: r => some (name, false, [], r)
      | ':' :: '=' :: r2 =>
        (match r2.dropWhile (· ≠ '}') with
         | '}' :: r3 => some (name, true, r2.takeWhile (· ≠ '}'), r3)
         | _ => none)
      | _ => none
    else none

theorem parseToken_rest_length {l : Str} {t : Str × Bool × Str × Str}
    (h : parseToken l = some t) : t.2.2.2.length ≤ l.length := by
  unfold parseToken at h
  split at h
  · exact absurd h (by simp)
  next c cs =>
    split at h
    · split at h
      next r heq =>
        cases h
        have hle := dropWhile_length_le isNameChar cs
        rw [heq] at hle
        simp only [List.length_cons] at hle ⊢
        omega
      next r2 heq =>
        split at h
        next r3 heq2 =>
          cases h
          have hle := dropWhile_length_le isNameChar cs
          rw [heq] at hle
          have hle2 := dropWhile_length_le (fun x => decide ¬(x = '}')) r2
          rw [heq2] at hle2
          simp only [List.length_cons] at hle hle2 ⊢
          omega
        next => exact absurd h (by simp)
      next => exact absurd h (by simp)
    · exact absurd h (by simp)

/-- The original text of a parsed token, i.e. the regex match `groups[0]`. -/
def tokenText (name : Str) (sep : Bool) (d : Str) : Str :=
  '$' :: '{' :: (name ++ (if sep then ':' :: '=' :: d else []) ++ ['}'])

/-- The replacement callback of `replaceEnvVars` (src/envfs.go lines 60-83)
applied to one match, with submatch groups reconstructed as Go's
`FindStringSubmatch` reports them (`groups[2]` is the whole `:=...` group,
`groups[3]` the default text; both are `""` when the group is absent).
`env` models `os.LookupEnv`. -/
def resolveToken (env : Str → Option Str) (name : Str) (sep : Bool) (d : Str) : Str :=
  let g2 : Str := if sep then ':' :: '=' :: d else []
  let g3 : Str := if sep then d else []
  let hasDefault := !g3.isEmpty
  let defaultValue := if hasDefault then g3 else []
  match env name with
  | some value => value
  | none =>
    if hasDefault || g2 = [':', '='] then defaultValue
    else tokenText name sep d

/-- One step of `replaceEnvVars` (src/envfs.go lines 59-84): Go's
`ReplaceAllStringFunc` over `envVarPattern` processes the content left to
right; at each position either a whole token matches (and is replaced by
the callback of lines 60-83, here `resolveToken`) or the scan advances one
character.  `scanStep` returns the emitted text and the remaining input;
a match can only start at `'$'`. -/
def scanStep (env : Str → Option Str) : Str → Str × Str
  | [] => ([], [])
  | '$' :: '{' :: r1 =>
    (match parseToken r1 with
     | some (name, sep, d, r2) => (resolveToken env name sep d, r2)
     | none => (['$'], '{' :: r1))
  | c :: rest => ([c], rest)

theorem scanStep_rest_lt (env : Str → Option Str) (c : Char) (rest : Str) :
    (scanStep env (c :: rest)).2.length < (c :: rest).length := by
  simp only [scanStep]
  split
  · next heq => exact absurd heq (by simp)
  · next r1 heq =>
    injection heq with h1 h2
    subst h2
    split
    · next name sep d r2 hp =>
      have hr := parseToken_rest_length hp
      simp only [] at hr
      simp only [List.length_cons]
      omega
    · simp
  · next c2 rest2 hx heq =>
    injection heq with h1 h2
    subst h2
    simp only [List.length_cons]
    omega

/-- The full scan of `replaceEnvVars`, structurally recursive on a fuel
that only needs to dominate the input length (each step consumes at least
one character, `scanStep_rest_lt`), so the fuel-exhaustion branch is
unreachable from `replaceEnvVars`; see `replaceFuel_eq_of_le`. -/
def replaceFuel (env : Str → Option Str) : Nat → Str → Str
  | 0, l => l
  | _ + 1, [] => []
  | fuel + 1, c :: rest =>
    (scanStep env (c :: rest)).1 ++ replaceFuel env fuel (scanStep env (c :: rest)).2

theorem replaceFuel_eq_of_le (env : Str → Option Str) :
    ∀ (fuel1 : Nat) (l : Str) (fuel2 : Nat), l.length ≤ fuel1 → l.length ≤ fuel2 →
      replaceFuel env fuel1 l = replaceFuel env fuel2 l := by
  intro fuel1
  induction fuel1 with
  | zero =>
    intro l fuel2 h1 _
    have : l = [] := List.eq_nil_of_length_eq_zero (Nat.le_zero.mp h1)
    subst this
    cases fuel2 <;> rfl
  | succ a ih =>
    intro l fuel2 h1 h2
    match l, fuel2 with
    | [], 0 => rfl
    | [], b + 1 => rfl
    | c :: rest, 0 => simp at h2
    | c :: rest, b + 1 =>
      simp only [replaceFuel]
      have hlt := scanStep_rest_lt env c rest
      simp only [List.length_cons] at h1 h2 hlt
      rw [ih (scanStep env (c :: rest)).2 b (by omega) (by omega)]

/-- `replaceEnvVars` on a Go string. -/
def replaceEnvVars (env : Str → Option Str) (content : Str) : Str :=
  replaceFuel env content.length content

/-- Whether some position of `l` starts a substring matching the
`envVarPattern` token grammar. -/
def hasToken : Str → Bool
  | [] => false
  | c :: rest =>
    (c = '$' &&
      (match rest with
       | '{' :: r1 => (parseToken r1).isSome
       | _ => false)) || hasToken rest

/-- All tokens of `l`, leftmost and non-overlapping: the matches that
`envVarPattern.FindAllStringSubmatch(l, -1)` reports, as
`(name, sepPresent, defaultText)` triples.  Same fuel discipline as
`replaceFuel`. -/
def findTokensFuel : Nat → Str → List (Str × Bool × Str)
  | 0, _ => []
  | _ + 1, [] => []
  | fuel + 1, '$' :: '{' :: r1 =>
    (match parseToken r1 with
     | some (name, sep, d, r2) => (name, sep, d) :: findTokensFuel fuel r2
     | none => findTokensFuel fuel ('{' :: r1))
  | fuel + 1, _ :: rest => findTokensFuel fuel rest

/-- The token list of a Go string. -/
def findTokens (l : Str) : List (Str × Bool × Str) :=
  findTokensFuel l.length l

/-- The per-match test of the startup scan (src/envfs.go lines 300-317):
a token puts its variable name into the `missing` set iff the variable is
unset, `match[3]` (the default text) is empty and `match[2]` is not the
bare `":="`. -/
def tokenReportsMissing (env : Str → Option Str)
    (name : Str) (sep : Bool) (d : Str) : Bool :=
  let g2 : Str := if sep then ':' :: '=' :: d else []
  let g3 : Str := if sep then d else []
  let hasDefault := !g3.isEmpty
  let defaultValue := if hasDefault then g3 else []
  (env name).isNone && defaultValue.isEmpty && !(g2 = [':', '='])

/-- Byte length of a Go string (`len(s)` in Go counts UTF-8 bytes). -/
def utf8Len (s : Str) : Nat :=
  (s.map Char.utf8Size).sum

/-! ## The virtual filesystem wrapper (src/envfs.go lines 14-50, 86-116) -/

/-- The part of `os.FileInfo` that `EnvFileSystem.Open` and `EnvFile.Stat`
inspect: the directory flag and the on-disk `Size()`. -/
structure FileInfoRec where
  isDir : Bool
  size : Nat
  deriving DecidableEq, Repr

/-- An underlying `http.File` as `Open` consumes it: the outcomes of
`file.Stat()` and of `io.ReadAll(file)` (`.error` models a non-nil Go
error). -/
structure UnderFile where
  statRes : Except Unit FileInfoRec
  content : Except Unit Str
  deriving Repr

/-- What `EnvFileSystem.Open` returns: a directory is passed through
unmodified; a regular file becomes an `EnvFile` holding the rewritten
content (the `bytes.Reader`), the original `os.FileInfo` and the
`replacedSize` in bytes. -/
inductive OpenedFile
  | passthrough (f : UnderFile)
  | envFile (content : Str) (info : FileInfoRec) (replacedSize : Nat)
  deriving Repr

/-- The wrapped errors `Open` can produce (src/envfs.go lines 89, 95, 105),
each carrying the requested name. -/
inductive OpenErr
  | openFailed (name : Str)
  | statFailed (name : Str)
  | readFailed (name : Str)
  deriving Repr

/-- `EnvFileSystem.Open` (src/envfs.go lines 86-116) over an abstract
underlying filesystem `fs` (as `http.FileSystem.Open`) and environment
`env`. -/
def envOpen (env : Str → Option Str) (fs : Str → Except Unit UnderFile)
    (name : Str) : Except OpenErr OpenedFile :=
  match fs name with
  | .error _ => .error (.openFailed name)
  | .ok file =>
    match file.statRes with
    | .error _ => .error (.statFailed name)
    | .ok stat =>
      if stat.isDir then .ok (.passthrough file)
      else
        match file.content with
        | .error _ => .error (.readFailed name)
        | .ok data =>
          let processedContent := replaceEnvVars env data
          .ok (.envFile processedContent stat (utf8Len processedContent))

/-- `EnvFileInfo` (src/envfs.go lines 25-28): the embedded `os.FileInfo`
plus the overriding `size` field. -/
structure EnvFileInfo where
  fileInfo : FileInfoRec
  size : Nat
  deriving DecidableEq, Repr

/-- `EnvFileInfo.Size` (src/envfs.go lines 30-32). -/
def EnvFileInfo.goSize (e : EnvFileInfo) : Nat := e.size

/-- `EnvFile.Stat` (src/envfs.go lines 41-43):
`EnvFileInfo{FileInfo: f.info, size: f.replacedSize}`. -/
def envFileStat (info : FileInfoRec) (replacedSize : Nat) : EnvFileInfo :=
  { fileInfo := info, size := replacedSize }

/-- The `Size()` reported by `Stat()` on whatever `Open` returned: for a
passthrough directory the underlying info's size, for an `EnvFile` the
`EnvFileInfo` override. -/
def openedStatSize : OpenedFile → Option Nat
  | .passthrough f => (f.statRes.toOption).map FileInfoRec.size
  | .envFile _ info replacedSize => some (envFileStat info replacedSize).goSize

/-! ## `EnvFile.Close` (src/envfs.go lines 34-39)

Only the `file` field (the underlying `http.File` handle) is read or
written by `Close`; the handle is modelled with the `os.File` close
semantics (`Close` on an already-closed file returns an error and a
repeated `Close` call reaches the underlying file again), plus a counter
of how many times the underlying `Close` has been invoked. -/

structure RealHandle where
  closed : Bool
  closeCalls : Nat
  deriving DecidableEq, Repr

/-- `os.File.Close`: returns an error (`some ()`) iff the file was already
closed; always counts as an invocation of the underlying close. -/
def RealHandle.goClose (h : RealHandle) : RealHandle × Option Unit :=
  (⟨true, h.closeCalls + 1⟩, if h.closed then some () else none)

/-- The `file` field of an `EnvFile` (`none` models a nil `http.File`). -/
structure EnvFileHandle where
  file : Option RealHandle
  deriving DecidableEq, Repr

/-- `EnvFile.Close` (src/envfs.go lines 34-39): nil check, then delegate to
the underlying handle.  Note the code never sets `f.file` to nil. -/
def EnvFileHandle.close (f : EnvFileHandle) : EnvFileHandle × Option Unit :=
  match f.file with
  | none => (f, none)
  | some h =>
    let (h1, e) := h.goClose
    ({ file := some h1 }, e)

/-! ## The startup validator (src/envfs.go lines 251-335)

`checkEnvVarsInFiles` drives `filepath.Walk` with the closure of
lines 261-320.  The tree below `root` is modelled by `FsNode`; the walker
`walkNode`/`walkList` is a port of Go `path/filepath.walk`, tracking the
path relative to `root` directly (for the clean roots modelled here
`filepath.Rel(root, filepath.Join(root, rel)) = (rel, nil)`, so the `Rel`
error branch of line 266-269 never fires).  `readDirNames` returns entries
in sorted order; the entry order only affects the order of the missing
set, which the claims do not inspect. -/

/-- A node of the scanned tree.  `file none` models a file whose
`os.ReadFile` fails; `dir none` a directory whose `readDirNames` fails;
`broken` an entry whose `lstat` fails. -/
inductive FsNode
  | file (content : Option Str)
  | dir (entries : Option (List (Str × FsNode)))
  | broken

/-- `fileInfo.IsDir()` as `lstat` reports it (only consulted for entries
whose `lstat` succeeded). -/
def FsNode.isDirNode : FsNode → Bool
  | .dir _ => true
  | _ => false

/-- The only non-nil error value the callback of lines 261-320 ever
returns is `filepath.SkipDir` (every other path returns `nil`). -/
inductive WalkSignal
  | skipDir
  deriving DecidableEq, Repr

/-- What the walker hands to the callback for one entry: `errArg` models a
call with `err ≠ nil` (failed `lstat` or `readDirNames`), otherwise the
entry kind, with a file's `os.ReadFile` outcome. -/
inductive WalkArg
  | errArg
  | dirArg
  | fileArg (content : Option Str)

/-- Insertion into the `missing` map (`missing[varName] = struct{}{}`). -/
def addMissing (missing : List Str) (n : Str) : List Str :=
  if missing.contains n then missing else missing ++ [n]

/-- The detection loop over one file's matches
(src/envfs.go lines 299-318). -/
def collectMissing (env : Str → Option Str) (missing : List Str)
    (data : Str) : List Str :=
  (findTokens data).foldl
    (fun acc t =>
      if tokenReportsMissing env t.1 t.2.1 t.2.2 then addMissing acc t.1 else acc)
    missing

/-- The `filepath.WalkFunc` closure of src/envfs.go lines 261-320, acting
on the missing-set state.  Every branch returns `nil` except the two
`filepath.SkipDir` returns for pruned directories. -/
def walkFn (env : Str → Option Str) (incs excs : List Str)
    (hasFilePats : Bool) (relPath : Str) (arg : WalkArg)
    (missing : List Str) : List Str × Option WalkSignal :=
  match arg with
  | .errArg => (missing, none)
  | .dirArg =>
    if relPath = ['.'] then (missing, none)
    else if hasFilePats then
      if !shouldInclude relPath [] excs false then (missing, some .skipDir)
      else (missing, none)
    else if !shouldInclude relPath incs excs false then (missing, some .skipDir)
    else (missing, none)
  | .fileArg content =>
    if !shouldInclude relPath incs excs true then (missing, none)
    else
      match content with
      | none => (missing, none)
      | some data => (collectMissing env missing data, none)

/-- The relative path of a child entry (`filepath.Join` of the walk,
re-expressed relative to the root). -/
def childRel (dirRel : Str) (name : Str) : Str :=
  if dirRel = ['.'] then name else dirRel ++ '/' :: name

mutual

/-- Port of Go `path/filepath.walk` for the callback above:
a non-directory entry is just handed to the callback; a directory first
reports itself (passing a `readDirNames` failure as `err`), then, unless
the callback pruned it, walks its children. -/
def walkNode (cb : Str → WalkArg → List Str → List Str × Option WalkSignal)
    (rel : Str) (node : FsNode) (missing : List Str) :
    List Str × Option WalkSignal :=
  match node with
  | .broken => cb rel .errArg missing
  | .file content => cb rel (.fileArg content) missing
  | .dir none =>
    -- readDirNames failed: err1 := walkFn(path, info, err); return err1
    cb rel .errArg missing
  | .dir (some entries) =>
    let (m1, e1) := cb rel .dirArg missing
    match e1 with
    | some s => (m1, some s)
    | none => walkList cb rel entries m1

/-- The loop over a directory's entries: `lstat` failure on a child sends
`errArg` to the callback (whose result is `nil` or `SkipDir`, neither of
which aborts the loop); a `SkipDir` bubbling out of a child directory is
absorbed, while from a non-directory child it is returned. -/
def walkList (cb : Str → WalkArg → List Str → List Str × Option WalkSignal)
    (dirRel : Str) (entries : List (Str × FsNode)) (missing : List Str) :
    List Str × Option WalkSignal :=
  match entries with
  | [] => (missing, none)
  | (name, child) :: rest =>
    match child with
    | .broken =>
      -- if err := walkFn(filename, nil, err); err != nil && err != SkipDir
      -- never holds for this callback: continue
      let (m1, _) := cb (childRel dirRel name) .errArg missing
      walkList cb dirRel rest m1
    | node =>
      let (m1, e1) := walkNode cb (childRel dirRel name) node missing
      match e1 with
      | none => walkList cb dirRel rest m1
      | some .skipDir =>
        if node.isDirNode then walkList cb dirRel rest m1
        else (m1, some .skipDir)

end

/-- The distinct error outcomes of `checkEnvVarsInFiles`
(src/envfs.go lines 253, 323, 331). -/
inductive ScanError
  | emptyRoot
  | walkError
  | missingVars (vars : List Str)
  deriving DecidableEq, Repr

/-- The tail of `checkEnvVarsInFiles` (src/envfs.go lines 322-334) applied
to what `filepath.Walk` produced: `Walk` converts a `SkipDir` left over at
top level to `nil`, line 322 tests the walk error, lines 326-332 convert a
non-empty missing set into its aggregate error. -/
def scanOutcome : List Str × Option WalkSignal → Except ScanError Unit
  | (missing, e) =>
    let walkRes : Option WalkSignal :=
      match e with
      | some .skipDir => none
      | none => none
    match walkRes with
    | some _ => .error .walkError
    | none =>
      if missing.isEmpty then .ok ()
      else .error (.missingVars missing)

/-- `checkEnvVarsInFiles` (src/envfs.go lines 251-335). `rootNode` models
the tree at `root` (`FsNode.broken` for an inaccessible root: Go's
`filepath.Walk` then calls the callback once with the `lstat` error). -/
def checkEnvVarsInFiles (env : Str → Option Str) (root : Str)
    (rootNode : FsNode) (includeDirs excludeDirs : Str) :
    Except ScanError Unit :=
  if root = [] then .error .emptyRoot
  else
    let includePatterns := parsePatterns includeDirs
    let excludePatterns := parsePatterns excludeDirs
    let hasFilePats := hasFilePatterns includePatterns
    let cb := walkFn env includePatterns excludePatterns hasFilePats
    scanOutcome (walkNode cb ['.'] rootNode [])

/-! ## Claim theorems -/

/-- C7: the literal (non-glob) directory pattern `docs`, evaluated as an
inclusion target, matches the paths `docs`, `docs/api` and `src/docs`, and
matches neither `documentation` nor `assets-old`. -/
theorem C7_literal_docs_pattern :
    matchPattern "docs".data "docs".data true = true ∧
    matchPattern "docs/api".data "docs".data true = true ∧
    matchPattern "src/docs".data "docs".data true = true ∧
    matchPattern "documentation".data "docs".data true = false ∧
    matchPattern "assets-old".data "docs".data true = false := by
  refine ⟨?_, ?_, ?_, ?_, ?_⟩ <;> decide

/-- C8: the slash-free glob pattern `test-*` matches `test-unit` and
`src/test-unit` (full path, or any path component) and does not match
`testing`, in both exclusion and inclusion mode. -/
theorem C8_glob_test_star :
    matchPattern "test-unit".data "test-*".data true = true ∧
    matchPattern "test-unit".data "test-*".data false = true ∧
    matchPattern "src/test-unit".data "test-*".data true = true ∧
    matchPattern "src/test-unit".data "test-*".data false = true ∧
    matchPattern "testing".data "test-*".data true = false ∧
    matchPattern "testing".data "test-*".data false = false := by
  refine ⟨?_, ?_, ?_, ?_, ?_, ?_⟩ <;> decide

/-- C2: in `shouldInclude`, exclude wins over include — if any exclude
pattern matches, the path is rejected whatever the include list; and with
an empty include list the result is exactly "no exclude matches". -/
theorem C2_exclude_wins (path : Str) (incs excs : List Str) (isFile : Bool) :
    (excs.any (fun p => matchPattern path p false) = true →
      shouldInclude path incs excs isFile = false) ∧
    (incs = [] →
      shouldInclude path incs excs isFile =
        !(excs.any (fun p => matchPattern path p false))) := by
  constructor
  · intro h
    simp only [shouldInclude, h, if_true]
  · intro h
    subst h
    simp only [shouldInclude, List.isEmpty_nil, if_true]
    cases hx : excs.any (fun p => matchPattern path p false) <;> simp

/-- Witness for C2 at the claim's own instance: include `{A}`,
exclude `{A}`, the path `A/x` under `A` is rejected. -/
theorem C2_exclude_wins_witness :
    shouldInclude "A/x".data ["A".data] ["A".data] true = false :=
  (C2_exclude_wins "A/x".data ["A".data] ["A".data] true).1 (by decide)

/-- The underlying filesystem of the C3 end-to-end scenario: one regular
file whose on-disk content is `A=${A}, B=${B:=bee}, C=${C}`. -/
def c3fs : Str → Except Unit UnderFile := fun n =>
  if n = "/test.txt".data then
    .ok { statRes := .ok { isDir := false,
                           size := utf8Len "A=${A}, B=${B:=bee}, C=${C}".data },
          content := .ok "A=${A}, B=${B:=bee}, C=${C}".data }
  else .error ()

/-- The environment of the C3 scenario: `A=aye`, `B` and `C` unset. -/
def c3env : Str → Option Str := fun n =>
  if n = "A".data then some "aye".data else none

/-- C3: opening the file yields readable content `A=aye, B=bee, C=${C}`
and a `Stat()` size equal to the byte length of that rewritten content
(20 bytes), not the on-disk length (27 bytes). -/
theorem C3_open_end_to_end :
    envOpen c3env c3fs "/test.txt".data =
      .ok (.envFile "A=aye, B=bee, C=${C}".data
            { isDir := false, size := utf8Len "A=${A}, B=${B:=bee}, C=${C}".data }
            (utf8Len "A=aye, B=bee, C=${C}".data)) ∧
    openedStatSize (.envFile "A=aye, B=bee, C=${C}".data
            { isDir := false, size := utf8Len "A=${A}, B=${B:=bee}, C=${C}".data }
            (utf8Len "A=aye, B=bee, C=${C}".data)) =
      some (utf8Len "A=aye, B=bee, C=${C}".data) ∧
    utf8Len "A=aye, B=bee, C=${C}".data = 20 ∧
    utf8Len "A=${A}, B=${B:=bee}, C=${C}".data = 27 := by
  refine ⟨rfl, rfl, by decide, by decide⟩

/-- C5 counterexample: `Close` never clears `f.file`, so a second `Close`
reaches the underlying handle again — it is invoked a second time
(`closeCalls = 2`) and its double-close error is returned, contradicting
"released exactly once" and "a second close returns no error". -/
theorem C5_close_counterexample :
    EnvFileHandle.close (EnvFileHandle.close ⟨some ⟨false, 0⟩⟩).1 =
      (⟨some ⟨true, 2⟩⟩, some ()) := by
  rfl

/-- C5 amended: the first `Close` on an open handle succeeds, but `Close`
is not idempotent — a second call invokes the underlying close again
(incrementing the invocation count to two) and returns the underlying
double-close error; only a nil `file` field (never produced by `Close`
itself) makes `Close` a no-op. -/
theorem C5_close_not_idempotent (h : RealHandle) (hopen : h.closed = false) :
    (EnvFileHandle.close ⟨some h⟩).2 = none ∧
    (EnvFileHandle.close (EnvFileHandle.close ⟨some h⟩).1).2 = some () ∧
    ((EnvFileHandle.close (EnvFileHandle.close ⟨some h⟩).1).1.file.map
        RealHandle.closeCalls) = some (h.closeCalls + 2) ∧
    (∀ f : EnvFileHandle, f.file = none → EnvFileHandle.close f = (f, none)) := by
  refine ⟨?_, ?_, ?_, ?_⟩
  · simp [EnvFileHandle.close, RealHandle.goClose, hopen]
  · simp [EnvFileHandle.close, RealHandle.goClose]
  · simp [EnvFileHandle.close, RealHandle.goClose]
  · intro f hf
    simp [EnvFileHandle.close, hf]

/-- Witness for C5's amended statement at a freshly opened handle. -/
theorem C5_close_not_idempotent_witness :
    (EnvFileHandle.close (⟨some ⟨false, 0⟩⟩ : EnvFileHandle)).2 = none ∧
    (EnvFileHandle.close (EnvFileHandle.close ⟨some ⟨false, 0⟩⟩).1).2 = some () :=
  ⟨(C5_close_not_idempotent ⟨false, 0⟩ rfl).1,
   (C5_close_not_idempotent ⟨false, 0⟩ rfl).2.1⟩

/-- C6 counterexample: with include pattern `docs/sub` (not a file
pattern), the final file selection of a file at path `docs` succeeds even
though the pattern only matches through the `forInclude` parent-traversal
allowance (in exclusion mode it does not match) — the allowance does apply
during final file selection, contrary to the claim. -/
theorem C6_file_selection_counterexample :
    matchPattern "docs".data "docs/sub".data false = false ∧
    shouldInclude "docs".data ["docs/sub".data] [] true = true := by
  exact ⟨by decide, by decide⟩

/-- C6 amended: the `forInclude` parent-traversal allowance applies during
final file selection too — for any non-glob, already-normalized include
pattern lying strictly below the path (`pattern = path ++ "/" ++ rest`),
`matchPattern` in inclusion mode matches and `shouldInclude` with
`isFile = true` accepts the file at `path`. -/
theorem C6_allowance_applies_to_files (path rest : Str)
    (hglob : containsAnyGlob (path ++ '/' :: rest) = false)
    (htrim : trimSpace (path ++ '/' :: rest) = path ++ '/' :: rest) :
    matchPattern path (path ++ '/' :: rest) true = true ∧
    shouldInclude path [path ++ '/' :: rest] [] true = true := by
  have hne : path ≠ path ++ '/' :: rest := by
    intro he
    have hlen := congrArg List.length he
    simp at hlen
  have hpre : hasPrefix (path ++ '/' :: rest) (path ++ ['/']) = true := by
    simp only [hasPrefix]
    rw [List.isPrefixOf_iff_prefix]
    exact ⟨rest, by simp⟩
  have hglobf : ∀ x ∈ path ++ '/' :: rest,
      ¬(x = '*' || x = '?' || x = '[' || x = ']') = true := by
    rw [← List.any_eq_false]
    exact hglob
  have hstar1 : '*' ∉ path := fun hm => by
    have := hglobf '*' (by simp [hm])
    simp at this
  have hstar2 : '*' ∉ rest := fun hm => by
    have := hglobf '*' (by simp [hm])
    simp at this
  have hglob2 : ¬ containsAnyGlob (path ++ '/' :: rest) = true := by
    simp [hglob]
  have hmp : matchPattern path (path ++ '/' :: rest) true = true := by
    simp only [matchPattern, toSlash, htrim]
    rw [if_neg hne, if_neg hglob2]
    by_cases h6 : hasPrefix path ((path ++ '/' :: rest) ++ ['/']) = true
    · rw [if_pos h6]
    · rw [if_neg h6]
      simp [hpre]
  refine ⟨hmp, ?_⟩
  have hfp : isFilePattern (path ++ '/' :: rest) = false := by
    simp [isFilePattern, hstar1, hstar2]
  simp [shouldInclude, hfp, hmp]

/-- Witness for C6's amended statement at the counterexample instance
(`path = docs`, pattern `docs/sub`). -/
theorem C6_allowance_applies_to_files_witness :
    matchPattern "docs".data "docs/sub".data true = true ∧
    shouldInclude "docs".data ["docs/sub".data] [] true = true := by
  have h := C6_allowance_applies_to_files "docs".data "sub".data
    (by decide) (by decide)
  exact h

/-- C4 counterexample: with the root itself inaccessible (`lstat` fails),
`filepath.Walk` hands the error to the callback, whose first branch
swallows it, so the scan returns success — not an error distinct from the
missing-variables error as claimed. -/
theorem C4_walk_error_counterexample :
    checkEnvVarsInFiles (fun _ => none) "r".data .broken [] [] = .ok () := by
  rfl

/-- The walk error branch (src/envfs.go line 322-324) can never fire: the
callback only ever returns `nil` or `SkipDir`, and `filepath.Walk` maps a
leftover `SkipDir` to `nil`. -/
theorem scanOutcome_ne_walkError (p : List Str × Option WalkSignal) :
    scanOutcome p ≠ .error .walkError := by
  obtain ⟨missing, e⟩ := p
  match e with
  | none =>
    simp only [scanOutcome]
    split <;> simp
  | some .skipDir =>
    simp only [scanOutcome]
    split <;> simp

/-- C4 amended: I/O errors are swallowed everywhere — per entry (a child
whose `lstat` fails, or a file whose read fails, contributes nothing and
does not abort the walk) and at walk level as well: a scan with a
non-empty root never returns the distinct walk error, and an inaccessible
root yields plain success, because the callback's first branch swallows
the error `filepath.Walk` passes for the root. -/
theorem C4_all_walk_errors_swallowed (env : Str → Option Str) (root : Str)
    (node : FsNode) (inc exc : Str) (hroot : root ≠ []) :
    checkEnvVarsInFiles env root node inc exc ≠ .error .walkError ∧
    checkEnvVarsInFiles env root .broken inc exc = .ok () ∧
    (∀ (incs excs : List Str) (hfp : Bool) (dirRel name : Str)
       (rest : List (Str × FsNode)) (missing : List Str),
      walkList (walkFn env incs excs hfp) dirRel ((name, .broken) :: rest) missing =
        walkList (walkFn env incs excs hfp) dirRel rest missing) ∧
    (∀ (incs excs : List Str) (hfp : Bool) (dirRel name : Str)
       (rest : List (Str × FsNode)) (missing : List Str),
      walkList (walkFn env incs excs hfp) dirRel ((name, .file none) :: rest) missing =
        walkList (walkFn env incs excs hfp) dirRel rest missing) := by
  refine ⟨?_, ?_, ?_, ?_⟩
  · simp only [checkEnvVarsInFiles, if_neg hroot]
    exact scanOutcome_ne_walkError _
  · simp only [checkEnvVarsInFiles, if_neg hroot]
    rfl
  · intro incs excs hfp dirRel name rest missing
    rfl
  · intro incs excs hfp dirRel name rest missing
    simp only [walkList, walkNode, walkFn]
    cases hs : shouldInclude (childRel dirRel name) incs excs true <;> simp

/-- Witness for C4's amended statement on a small concrete tree. -/
theorem C4_all_walk_errors_swallowed_witness :
    checkEnvVarsInFiles (fun _ => none) "r".data
        (.dir (some [("a".data, .broken)])) [] [] ≠ .error .walkError :=
  (C4_all_walk_errors_swallowed (fun _ => none) "r".data
      (.dir (some [("a".data, .broken)])) [] [] (by decide)).1

/-- A string that the token grammar accepts as a variable name:
`[A-Za-z_][A-Za-z0-9_]*`. -/
def validNameB : Str → Bool
  | [] => false
  | c :: cs => isNameStart c && cs.all isNameChar

theorem takeWhile_append_not {p : Char → Bool} :
    ∀ (xs : Str) (y : Char) (ys : Str), (∀ x ∈ xs, p x = true) → p y = false →
      (xs ++ y :: ys).takeWhile p = xs ∧ (xs ++ y :: ys).dropWhile p = y :: ys := by
  intro xs
  induction xs with
  | nil =>
    intro y ys _ hy
    simp [List.takeWhile_cons, List.dropWhile_cons, hy]
  | cons a xs ih =>
    intro y ys hall hy
    have ha : p a = true := hall a (by simp)
    have hih := ih y ys (fun x hx => hall x (by simp [hx])) hy
    simp [List.takeWhile_cons, List.dropWhile_cons, ha, hih.1, hih.2]

/-- `parseToken` recognizes exactly a well-formed token head: the name, the
optional `:=default` group, the closing brace, and the untouched suffix
(with an empty default recorded when the group is absent). -/
theorem parseToken_token (name : Str) (sep : Bool) (d suffix : Str)
    (hname : validNameB name = true) (hd : '}' ∉ d) :
    parseToken (name ++ (if sep then ':' :: '=' :: d else []) ++ '}' :: suffix) =
      some (name, sep, if sep then d else [], suffix) := by
  match name with
  | [] => simp [validNameB] at hname
  | c :: cs =>
    simp only [validNameB, Bool.and_eq_true, List.all_eq_true] at hname
    obtain ⟨hstart, hall⟩ := hname
    cases sep with
    | false =>
      have hinput : (c :: cs) ++ (if false = true then ':' :: '=' :: d else []) ++
          '}' :: suffix = c :: (cs ++ '}' :: suffix) := by simp
      have hsplit := takeWhile_append_not (p := isNameChar) cs '}'
        suffix (fun x hx => hall x hx) (by decide)
      rw [hinput]
      simp [parseToken, if_pos hstart, hsplit.1, hsplit.2]
    | true =>
      have hinput : (c :: cs) ++ (if true = true then ':' :: '=' :: d else []) ++
          '}' :: suffix = c :: (cs ++ ':' :: ('=' :: (d ++ '}' :: suffix))) := by simp
      have hsplit := takeWhile_append_not (p := isNameChar) cs ':'
        ('=' :: (d ++ '}' :: suffix)) (fun x hx => hall x hx) (by decide)
      have hdall : ∀ x ∈ d, (!decide (x = '}')) = true := by
        intro x hx
        simp
        intro hxe
        exact hd (hxe ▸ hx)
      have hsplit2 := takeWhile_append_not (p := fun x => !decide (x = '}'))
        d '}' suffix hdall (by decide)
      rw [hinput]
      simp [parseToken, if_pos hstart, hsplit.1, hsplit.2, hsplit2.1, hsplit2.2]

/-- C1: substitution resolves each placeholder token independently — for
any well-formed token `${name}` or `${name:=d}` at the head of the input,
the scan replaces exactly that token by its resolution and then continues
with the rest, and the resolution is: the environment value if the lookup
reports the variable as existing (even as `""`), ignoring any default;
otherwise the default text verbatim when the `:=` separator was present
(even empty); otherwise the whole original token text. -/
theorem C1_token_resolution (env : Str → Option Str) (name d suffix : Str)
    (sep : Bool) (hname : validNameB name = true) (hd : '}' ∉ d) :
    replaceEnvVars env (tokenText name sep d ++ suffix) =
      resolveToken env name sep d ++ replaceEnvVars env suffix ∧
    resolveToken env name sep d =
      (match env name with
       | some v => v
       | none => if sep then d else tokenText name sep d) := by
  have hres : resolveToken env name sep d =
      (match env name with
       | some v => v
       | none => if sep then d else tokenText name sep d) := by
    cases he : env name with
    | some v => simp [resolveToken, he]
    | none =>
      cases sep with
      | true =>
        cases d with
        | nil => simp [resolveToken, he]
        | cons a as => simp [resolveToken, he]
      | false => simp [resolveToken, he, tokenText]
  refine ⟨?_, hres⟩
  have hparse := parseToken_token name sep d suffix hname hd
  have hshape : tokenText name sep d ++ suffix =
      '$' :: '{' :: (name ++ (if sep then ':' :: '=' :: d else []) ++
        '}' :: suffix) := by
    simp [tokenText]
  rw [hshape]
  have hlen : suffix.length ≤
      (name ++ (if sep then ':' :: '=' :: d else []) ++ '}' :: suffix).length + 1 := by
    simp [List.length_append]
    omega
  have hfuel := replaceFuel_eq_of_le env
    ((name ++ (if sep then ':' :: '=' :: d else []) ++ '}' :: suffix).length + 1)
    suffix suffix.length hlen (Nat.le_refl _)
  simp only [replaceEnvVars, List.length_cons, replaceFuel, scanStep, hparse, hfuel]
  cases sep with
  | true => rfl
  | false => rfl

/-- Witness for C1 with both token forms at a concrete environment. -/
theorem C1_token_resolution_witness :
    replaceEnvVars (fun _ => none) (tokenText "HOME".data true "dd".data ++ "!x".data) =
      resolveToken (fun _ => none) "HOME".data true "dd".data ++
        replaceEnvVars (fun _ => none) "!x".data :=
  (C1_token_resolution (fun _ => none) "HOME".data "dd".data "!x".data true
    (by decide) (by decide)).1

/-- When no token starts at the head of `c :: rest`, the scan emits `c`
and keeps the tail; and token-freeness is inherited by the tail. -/
theorem scanStep_no_token (env : Str → Option Str) (c : Char) (rest : Str)
    (h : hasToken (c :: rest) = false) :
    scanStep env (c :: rest) = ([c], rest) ∧ hasToken rest = false := by
  simp only [hasToken, Bool.or_eq_false_iff, Bool.and_eq_false_iff] at h
  obtain ⟨h1, h2⟩ := h
  refine ⟨?_, h2⟩
  simp only [scanStep]
  split
  · next heq => exact absurd heq (by simp)
  · next r1 heq =>
    injection heq with hc hrest
    subst hc
    subst hrest
    rcases h1 with h1 | h1
    · simp at h1
    · have h1' : (parseToken r1).isSome = false := h1
      cases hp : parseToken r1 with
      | none => rfl
      | some t => rw [hp] at h1'; simp at h1'
  · next c2 rest2 hx heq =>
    injection heq with hc hrest
    subst hc
    subst hrest
    rfl

/-- If a list is token-free, the substitution scan is the identity on it
(for any sufficient fuel). -/
theorem replaceFuel_id_of_no_token (env : Str → Option Str) :
    ∀ (fuel : Nat) (l : Str), l.length ≤ fuel → hasToken l = false →
      replaceFuel env fuel l = l := by
  intro fuel
  induction fuel with
  | zero => intro l _ _; rfl
  | succ a ih =>
    intro l hlen htok
    match l with
    | [] => rfl
    | c :: rest =>
      have hstep := scanStep_no_token env c rest htok
      simp only [replaceFuel, hstep.1]
      simp only [List.length_cons] at hlen
      rw [ih rest (by omega) hstep.2]
      rfl

/-- C9: substitution is idempotent on its own output when no residual
tokens remain — if one pass leaves no substring matching the token
grammar, a second pass is the identity. -/
theorem C9_substitution_idempotent (env : Str → Option Str) (c : Str)
    (h : hasToken (replaceEnvVars env c) = false) :
    replaceEnvVars env (replaceEnvVars env c) = replaceEnvVars env c :=
  replaceFuel_id_of_no_token env (replaceEnvVars env c).length
    (replaceEnvVars env c) (Nat.le_refl _) h

/-- Witness for C9 on a concrete content and environment. -/
theorem C9_substitution_idempotent_witness :
    hasToken (replaceEnvVars
      (fun n => if n = "A".data then some "x".data else none)
      "A=${A} ${B:=b}!".data) = false ∧
    replaceEnvVars (fun n => if n = "A".data then some "x".data else none)
      (replaceEnvVars (fun n => if n = "A".data then some "x".data else none)
        "A=${A} ${B:=b}!".data) =
      replaceEnvVars (fun n => if n = "A".data then some "x".data else none)
        "A=${A} ${B:=b}!".data :=
  ⟨by decide, C9_substitution_idempotent _ _ (by decide)⟩

/-- C10: single-pattern matching is monotone in the `forInclude` flag —
a match in exclusion mode is also a match in inclusion mode, since the
flag only adds the parent-traversal clauses. -/
theorem C10_matchPattern_monotone (path pat : Str)
    (h : matchPattern path pat false = true) :
    matchPattern path pat true = true := by
  simp only [matchPattern, toSlash] at h ⊢
  by_cases h1 : path = trimSpace pat
  · rw [if_pos h1]
  · rw [if_neg h1] at h ⊢
    by_cases h2 : containsAnyGlob (trimSpace pat) = true
    · rw [if_pos h2] at h ⊢
      by_cases h3 : goMatch (trimSpace pat) path = true
      · rw [if_pos h3]
      · rw [if_neg h3] at h ⊢
        by_cases h4 : (trimSpace pat).contains '/' = true
        · rw [if_pos h4] at h ⊢
          by_cases h5 : goMatch (trimSpace pat) (dirPath path) = true
          · rw [if_pos h5]
          · rw [if_neg h5] at h
            exact absurd h (by simp)
        · rw [if_neg h4] at h ⊢
          exact h
    · rw [if_neg h2] at h ⊢
      by_cases h6 : hasPrefix path (trimSpace pat ++ ['/']) = true
      · rw [if_pos h6]
      · rw [if_neg h6] at h ⊢
        have hB : ((splitOnChar '/' path).any fun part => part = trimSpace pat) = true := by
          simpa using h
        by_cases h7 : hasPrefix (trimSpace pat) (path ++ ['/']) = true
        · simp [h7]
        · simp [h7, hB]

/-- Witness for C10 at the exclusion-mode match `("A/x", "A")`. -/
theorem C10_matchPattern_monotone_witness :
    matchPattern "A/x".data "A".data true = true :=
  C10_matchPattern_monotone "A/x".data "A".data (by decide)

end GoStaticEnv
